import Mathlib

/-!
Verification of the v4-chain CLOB module specification.

The keeper implementations under verification (`x/clob/keeper/order_state.go`,
`x/clob/keeper/clob_pair.go`, `x/clob/keeper/process_operations.go`,
`app/process/transactions.go`) are exercised only through their tests in this
repository snapshot; every operational definition below is therefore modelled
from the specification's description of those components, with the tests fixing
the concrete observable behaviour.
-/

set_option maxRecDepth 8000

namespace V4Chain

/-! ## Data model: subaccount ids and order ids -/

/-- Modelled from the spec: a subaccount identifier (account owner plus
subaccount number).  Owners are opaque identifiers; we model them as `Nat`. -/
structure SubaccountId where
  owner : Nat
  number : Nat
  deriving DecidableEq, Repr

/-- Modelled from the spec: an order is identified by
`(SubaccountId, ClientId, ClobPairId)` plus an order-flag field distinguishing
short-term / long-term / conditional orders. -/
structure OrderId where
  subaccountId : SubaccountId
  clientId : Nat
  orderFlags : Nat
  clobPairId : Nat
  deriving DecidableEq, Repr

/-- A total sort key for order ids, used for the deterministic (sorted)
representation of consensus-relevant order-id sets.  `Nat.pair` is injective,
so distinct order ids get distinct keys. -/
def OrderId.sortKey (o : OrderId) : Nat :=
  Nat.pair o.subaccountId.owner (Nat.pair o.subaccountId.number
    (Nat.pair o.clientId (Nat.pair o.orderFlags o.clobPairId)))

theorem OrderId.sortKey_injective : Function.Injective OrderId.sortKey := by
  intro a b hab
  unfold OrderId.sortKey at hab
  simp only [Nat.pair_eq_pair] at hab
  obtain ⟨h1, h2, h3, h4, h5⟩ := hab
  obtain ⟨⟨ao, an⟩, ac, af, ap⟩ := a
  obtain ⟨⟨bo, bn⟩, bc, bf, bp⟩ := b
  simp_all

/-- Strict ordering of order ids by sort key. -/
def oidLt (a b : OrderId) : Prop := a.sortKey < b.sortKey

instance : DecidableRel oidLt := fun a b => Nat.decLt a.sortKey b.sortKey

instance : IsIrrefl OrderId oidLt := ⟨fun a => Nat.lt_irrefl a.sortKey⟩

instance : IsTrans OrderId oidLt := ⟨fun _ _ _ hab hbc => Nat.lt_trans hab hbc⟩

instance : IsAntisymm OrderId oidLt :=
  ⟨fun _ _ hab hba => absurd (Nat.lt_trans hab hba) (Nat.lt_irrefl _)⟩

/-! ## Sorted, duplicate-free insertion of order ids

Modelled from the spec: the per-height prunable-order-id set "must collapse to
a single entry per order id" and "the stored representation must be
deterministic (fixed ordering, e.g. sorted)". -/

/-- Insert an order id into a sorted duplicate-free list, keeping it sorted and
duplicate-free. -/
def insertPrunableOrderId (x : OrderId) : List OrderId → List OrderId
  | [] => [x]
  | y :: ys =>
    if x = y then y :: ys
    else if x.sortKey < y.sortKey then x :: y :: ys
    else y :: insertPrunableOrderId x ys

/-- Merge a batch of order ids into the sorted duplicate-free representation. -/
def addIdsToPrunable (e : List OrderId) (ids : List OrderId) : List OrderId :=
  ids.foldl (fun acc i => insertPrunableOrderId i acc) e

theorem mem_insertPrunableOrderId {a x : OrderId} {l : List OrderId} :
    a ∈ insertPrunableOrderId x l ↔ a = x ∨ a ∈ l := by
  induction l with
  | nil => simp [insertPrunableOrderId]
  | cons y ys ih =>
    simp only [insertPrunableOrderId]
    split_ifs with hxy hk
    · subst hxy
      simp only [List.mem_cons]
      tauto
    · simp only [List.mem_cons]
    · simp only [List.mem_cons, ih]
      tauto

theorem sorted_insertPrunableOrderId {x : OrderId} {l : List OrderId}
    (hl : l.Pairwise oidLt) : (insertPrunableOrderId x l).Pairwise oidLt := by
  induction l with
  | nil => simp [insertPrunableOrderId]
  | cons y ys ih =>
    rcases List.pairwise_cons.mp hl with ⟨hy, hys⟩
    simp only [insertPrunableOrderId]
    split_ifs with hxy hk
    · exact hl
    · refine List.pairwise_cons.mpr ⟨?_, hl⟩
      intro b hb
      rcases List.mem_cons.mp hb with hb | hb
      · rw [hb]; exact hk
      · exact Nat.lt_trans hk (hy b hb)
    · refine List.pairwise_cons.mpr ⟨?_, ih hys⟩
      intro b hb
      rcases mem_insertPrunableOrderId.mp hb with hb | hb
      · rw [hb]
        have hle : y.sortKey ≤ x.sortKey := Nat.le_of_not_lt hk
        exact Nat.lt_of_le_of_ne hle
          (fun hcon => hxy (OrderId.sortKey_injective hcon.symm))
      · exact hy b hb

theorem insertPrunableOrderId_of_mem {x : OrderId} {l : List OrderId}
    (hl : l.Pairwise oidLt) (hx : x ∈ l) : insertPrunableOrderId x l = l := by
  induction l with
  | nil => cases hx
  | cons y ys ih =>
    rcases List.pairwise_cons.mp hl with ⟨hy, hys⟩
    simp only [insertPrunableOrderId]
    split_ifs with hxy hk
    · rfl
    · rcases List.mem_cons.mp hx with hx' | hx'
      · exact absurd hx' hxy
      · exact absurd hk (Nat.not_lt.mpr (Nat.le_of_lt (hy x hx')))
    · rcases List.mem_cons.mp hx with hx' | hx'
      · exact absurd hx' hxy
      · rw [ih hys hx']

theorem mem_addIdsToPrunable {a : OrderId} {e ids : List OrderId} :
    a ∈ addIdsToPrunable e ids ↔ a ∈ e ∨ a ∈ ids := by
  induction ids generalizing e with
  | nil => simp [addIdsToPrunable]
  | cons i is ih =>
    simp only [addIdsToPrunable, List.foldl_cons] at *
    rw [ih]
    simp only [mem_insertPrunableOrderId, List.mem_cons]
    tauto

theorem sorted_addIdsToPrunable {e ids : List OrderId}
    (he : e.Pairwise oidLt) : (addIdsToPrunable e ids).Pairwise oidLt := by
  induction ids generalizing e with
  | nil => simpa [addIdsToPrunable] using he
  | cons i is ih =>
    simp only [addIdsToPrunable, List.foldl_cons] at *
    exact ih (sorted_insertPrunableOrderId he)

theorem addIdsToPrunable_of_subset {e ids : List OrderId}
    (he : e.Pairwise oidLt) (hsub : ∀ i ∈ ids, i ∈ e) : addIdsToPrunable e ids = e := by
  induction ids with
  | nil => rfl
  | cons i is ih =>
    simp only [addIdsToPrunable, List.foldl_cons]
    rw [insertPrunableOrderId_of_mem he (hsub i (List.mem_cons_self i is))]
    exact ih fun j hj => hsub j (List.mem_cons_of_mem i hj)

/-- Two sorted duplicate-free order-id lists with the same members are equal. -/
theorem eq_of_sorted_of_mem_iff {l₁ l₂ : List OrderId}
    (h₁ : l₁.Pairwise oidLt) (h₂ : l₂.Pairwise oidLt)
    (hmem : ∀ a, a ∈ l₁ ↔ a ∈ l₂) : l₁ = l₂ := by
  have hs₁ : l₁.Sorted oidLt := h₁
  have hs₂ : l₂.Sorted oidLt := h₂
  have hd₁ : l₁.Nodup := List.Pairwise.nodup h₁
  have hd₂ : l₂.Nodup := List.Pairwise.nodup h₂
  exact List.eq_of_perm_of_sorted ((List.perm_ext_iff_of_nodup hd₁ hd₂).mpr hmem) hs₁ hs₂

theorem addIdsToPrunable_idem {e ids : List OrderId} (he : e.Pairwise oidLt) :
    addIdsToPrunable (addIdsToPrunable e ids) ids = addIdsToPrunable e ids :=
  addIdsToPrunable_of_subset (sorted_addIdsToPrunable he)
    (fun i hi => mem_addIdsToPrunable.mpr (Or.inr hi))

theorem addIdsToPrunable_dedup {e ids : List OrderId} (he : e.Pairwise oidLt) :
    addIdsToPrunable e ids = addIdsToPrunable e ids.dedup :=
  eq_of_sorted_of_mem_iff (sorted_addIdsToPrunable he) (sorted_addIdsToPrunable he)
    (fun a => by simp [mem_addIdsToPrunable, List.mem_dedup])

theorem addIdsToPrunable_perm {e ids ids' : List OrderId} (he : e.Pairwise oidLt)
    (hperm : ids.Perm ids') : addIdsToPrunable e ids = addIdsToPrunable e ids' :=
  eq_of_sorted_of_mem_iff (sorted_addIdsToPrunable he) (sorted_addIdsToPrunable he)
    (fun a => by simp [mem_addIdsToPrunable, hperm.mem_iff])

/-! ## Fill-State & Pruning Tracker

Modelled from the spec (§4.3): per-order cumulative fill amount plus a
prunable block height, and a per-height index of potentially prunable order
ids used for deterministic batch pruning with duplicate suppression. -/

/-- Per-order fill state: cumulative filled base quantums and the block height
at which the entry becomes prunable. -/
structure OrderFillState where
  fillAmount : Nat
  prunableBlockHeight : Nat
  deriving DecidableEq, Repr

/-- The durable key-value state owned by the fill-state tracker. -/
@[ext]
structure OrderStateStore where
  fillStates : OrderId → Option OrderFillState
  blockHeightToPotentiallyPrunableOrders : Nat → Option (List OrderId)

def emptyOrderStateStore : OrderStateStore :=
  { fillStates := fun _ => none
    blockHeightToPotentiallyPrunableOrders := fun _ => none }

/-- Modelled from the spec: `SetOrderFillAmount(orderId, cumulativeFillAmount,
prunableBlockHeight)` is last-write-wins and overwrites both fields
atomically. -/
def setOrderFillAmount (s : OrderStateStore) (orderId : OrderId)
    (fillAmount : Nat) (prunableBlockHeight : Nat) : OrderStateStore :=
  { s with fillStates := fun oid =>
      if oid = orderId then some ⟨fillAmount, prunableBlockHeight⟩
      else s.fillStates oid }

/-- Modelled from the spec: `GetOrderFillAmount(orderId)` returns
`(exists, fillAmount, prunableBlockHeight)`; `none` models `exists = false`
for never-set or pruned orders. -/
def getOrderFillAmount (s : OrderStateStore) (orderId : OrderId) :
    Option OrderFillState :=
  s.fillStates orderId

/-- Modelled from the spec: `RemoveOrderFillAmount(orderId)` deletes the
fill-state entry for exactly that order id. -/
def removeOrderFillAmount (s : OrderStateStore) (orderId : OrderId) :
    OrderStateStore :=
  { s with fillStates := fun oid =>
      if oid = orderId then none else s.fillStates oid }

/-- Modelled from the spec: `AddOrdersForPruning(orderIds, blockHeight)` merges
the given ids into the per-height prunable set; duplicates within one call and
across repeated calls collapse to a single entry, stored in sorted order. -/
def addOrdersForPruning (s : OrderStateStore) (orderIds : List OrderId)
    (blockHeight : Nat) : OrderStateStore :=
  { s with blockHeightToPotentiallyPrunableOrders := fun h =>
      if h = blockHeight then
        some (addIdsToPrunable
          ((s.blockHeightToPotentiallyPrunableOrders blockHeight).getD [])
          orderIds)
      else s.blockHeightToPotentiallyPrunableOrders h }

/-- The order ids recorded as potentially prunable at a block height whose
fill state still has that exact prunable height, i.e. the ones pruning at
that height removes. -/
def removedAtBlockHeight (s : OrderStateStore) (blockHeight : Nat) : List OrderId :=
  ((s.blockHeightToPotentiallyPrunableOrders blockHeight).getD []).filter
    (fun oid =>
      match s.fillStates oid with
      | some fs => fs.prunableBlockHeight == blockHeight
      | none => false)

/-- Modelled from the spec: `PruneOrdersForBlockHeight(blockHeight)` deletes
the fill-state of each recorded order id whose current `PrunableBlockHeight`
still equals the height being pruned, returns the removed ids, and always
deletes the per-height index entry; a height with no recorded entries is a
no-op returning an empty set. -/
def pruneOrdersForBlockHeight (s : OrderStateStore) (blockHeight : Nat) :
    List OrderId × OrderStateStore :=
  if s.blockHeightToPotentiallyPrunableOrders blockHeight = none then ([], s)
  else
    (removedAtBlockHeight s blockHeight,
      { fillStates := fun oid =>
          if oid ∈ removedAtBlockHeight s blockHeight then none
          else s.fillStates oid
        blockHeightToPotentiallyPrunableOrders := fun h =>
          if h = blockHeight then none
          else s.blockHeightToPotentiallyPrunableOrders h })

/-! ### Claim C4 -/

/-- C4: `SetOrderFillAmount` is last-write-wins and overwrites both fields
atomically: after `SetOrderFillAmount(id, a₁, h₁)` followed by
`SetOrderFillAmount(id, a₂, h₂)`, `GetOrderFillAmount(id)` returns
`(true, a₂, h₂)` (in particular `(true, 200, 20)` for the spec's concrete
values); and for an order id that was never set, or that was pruned,
`GetOrderFillAmount` returns `exists = false` (modelled as `none`). -/
theorem setOrderFillAmount_last_write_wins
    (s : OrderStateStore) (orderId : OrderId) (a₁ h₁ a₂ h₂ : Nat) :
    getOrderFillAmount
        (setOrderFillAmount (setOrderFillAmount s orderId a₁ h₁) orderId a₂ h₂)
        orderId = some ⟨a₂, h₂⟩
    ∧ (∀ oid, getOrderFillAmount emptyOrderStateStore oid = none)
    ∧ (∀ t height oid, oid ∈ (pruneOrdersForBlockHeight t height).1 →
        getOrderFillAmount (pruneOrdersForBlockHeight t height).2 oid = none) := by
  refine ⟨?_, ?_, ?_⟩
  · simp [getOrderFillAmount, setOrderFillAmount]
  · intro oid
    rfl
  · intro t height oid hmem
    unfold pruneOrdersForBlockHeight at hmem ⊢
    by_cases hcase : t.blockHeightToPotentiallyPrunableOrders height = none
    · rw [if_pos hcase] at hmem
      cases hmem
    · rw [if_neg hcase] at hmem ⊢
      have hmem' : oid ∈ removedAtBlockHeight t height := by simpa using hmem
      simp [getOrderFillAmount, hmem']

theorem setOrderFillAmount_last_write_wins_witness :
    getOrderFillAmount
        (setOrderFillAmount
          (setOrderFillAmount emptyOrderStateStore ⟨⟨0, 0⟩, 0, 0, 0⟩ 100 10)
          ⟨⟨0, 0⟩, 0, 0, 0⟩ 200 20)
        ⟨⟨0, 0⟩, 0, 0, 0⟩ = some ⟨200, 20⟩
    ∧ getOrderFillAmount
        (pruneOrdersForBlockHeight
          (addOrdersForPruning
            (setOrderFillAmount emptyOrderStateStore ⟨⟨0, 0⟩, 0, 0, 0⟩ 5 10)
            [⟨⟨0, 0⟩, 0, 0, 0⟩] 10)
          10).2 ⟨⟨0, 0⟩, 0, 0, 0⟩ = none :=
  ⟨(setOrderFillAmount_last_write_wins emptyOrderStateStore
      ⟨⟨0, 0⟩, 0, 0, 0⟩ 100 10 200 20).1,
   (setOrderFillAmount_last_write_wins emptyOrderStateStore
      ⟨⟨0, 0⟩, 0, 0, 0⟩ 100 10 200 20).2.2
     (addOrdersForPruning
       (setOrderFillAmount emptyOrderStateStore ⟨⟨0, 0⟩, 0, 0, 0⟩ 5 10)
       [⟨⟨0, 0⟩, 0, 0, 0⟩] 10)
     10 ⟨⟨0, 0⟩, 0, 0, 0⟩ (by decide)⟩

/-! ### Claim C10 -/

/-- C10: for distinct order ids `a ≠ b`, `RemoveOrderFillAmount(b)` deletes
only `b`'s fill state: afterwards `GetOrderFillAmount(b)` returns
`exists = false` while `GetOrderFillAmount(a)` returns whatever it returned
before (so a previously set fill amount and prunable height are unchanged);
a subsequent `SetOrderFillAmount(b, f₁, h₁)` re-creates `b`'s fill state,
still without touching `a`. -/
theorem removeOrderFillAmount_frame
    (s : OrderStateStore) (a b : OrderId) (hab : a ≠ b) (f₁ h₁ : Nat) :
    getOrderFillAmount (removeOrderFillAmount s b) a = getOrderFillAmount s a
    ∧ getOrderFillAmount (removeOrderFillAmount s b) b = none
    ∧ getOrderFillAmount (setOrderFillAmount (removeOrderFillAmount s b) b f₁ h₁) b
        = some ⟨f₁, h₁⟩
    ∧ getOrderFillAmount (setOrderFillAmount (removeOrderFillAmount s b) b f₁ h₁) a
        = getOrderFillAmount s a := by
  refine ⟨?_, ?_, ?_, ?_⟩ <;>
    simp [getOrderFillAmount, removeOrderFillAmount, setOrderFillAmount, hab]

theorem removeOrderFillAmount_frame_witness :
    getOrderFillAmount
        (removeOrderFillAmount
          (setOrderFillAmount
            (setOrderFillAmount emptyOrderStateStore ⟨⟨0, 0⟩, 0, 0, 0⟩ 100 0)
            ⟨⟨1, 0⟩, 0, 0, 0⟩ 10 0)
          ⟨⟨1, 0⟩, 0, 0, 0⟩)
        ⟨⟨0, 0⟩, 0, 0, 0⟩
      = getOrderFillAmount
          (setOrderFillAmount
            (setOrderFillAmount emptyOrderStateStore ⟨⟨0, 0⟩, 0, 0, 0⟩ 100 0)
            ⟨⟨1, 0⟩, 0, 0, 0⟩ 10 0)
          ⟨⟨0, 0⟩, 0, 0, 0⟩ :=
  (removeOrderFillAmount_frame
    (setOrderFillAmount
      (setOrderFillAmount emptyOrderStateStore ⟨⟨0, 0⟩, 0, 0, 0⟩ 100 0)
      ⟨⟨1, 0⟩, 0, 0, 0⟩ 10 0)
    ⟨⟨0, 0⟩, 0, 0, 0⟩ ⟨⟨1, 0⟩, 0, 0, 0⟩ (by decide) 50 0).1

/-! ### Claim C2 -/

/-- The spec's prune-height race scenario: set fill at height `h`, add for
pruning at height `h`, then re-set the fill with prunable height `h + 1`. -/
def bumpScenario (s : OrderStateStore) (orderId : OrderId) (fill h : Nat) :
    OrderStateStore :=
  setOrderFillAmount
    (addOrdersForPruning (setOrderFillAmount s orderId fill h) [orderId] h)
    orderId fill (h + 1)

/-- C2: after `SetOrderFillAmount(id, fill, h)`, `AddOrdersForPruning([id], h)`
and `SetOrderFillAmount(id, fill, h+1)`, pruning height `h` returns an empty
removed set, the order's fill state still exists with
`PrunableBlockHeight = h + 1`, and the per-height prunable-order index entry
for `h` is deleted; moreover `PruneOrdersForBlockHeight` on a height with no
recorded entries is a no-op returning an empty set. -/
theorem pruneOrders_bumped_height_survives
    (s : OrderStateStore) (orderId : OrderId) (fill h : Nat)
    (hnone : s.blockHeightToPotentiallyPrunableOrders h = none) :
    ((pruneOrdersForBlockHeight (bumpScenario s orderId fill h) h).1 = []
      ∧ getOrderFillAmount
          (pruneOrdersForBlockHeight (bumpScenario s orderId fill h) h).2 orderId
          = some ⟨fill, h + 1⟩
      ∧ ((pruneOrdersForBlockHeight (bumpScenario s orderId fill h) h).2).blockHeightToPotentiallyPrunableOrders h = none)
    ∧ (∀ t height, t.blockHeightToPotentiallyPrunableOrders height = none →
        (pruneOrdersForBlockHeight t height).1 = []
          ∧ (pruneOrdersForBlockHeight t height).2 = t) := by
  have hpr : (bumpScenario s orderId fill h).blockHeightToPotentiallyPrunableOrders h
      = some [orderId] := by
    simp [bumpScenario, setOrderFillAmount, addOrdersForPruning, hnone,
      addIdsToPrunable, insertPrunableOrderId]
  have hfs : (bumpScenario s orderId fill h).fillStates orderId
      = some ⟨fill, h + 1⟩ := by
    simp [bumpScenario, setOrderFillAmount, addOrdersForPruning]
  have hrem : removedAtBlockHeight (bumpScenario s orderId fill h) h = [] := by
    simp only [removedAtBlockHeight, hpr, Option.getD_some]
    simp [hfs, Nat.succ_ne_self]
  have hcond : ¬ (bumpScenario s orderId fill h).blockHeightToPotentiallyPrunableOrders h
      = none := by
    rw [hpr]; exact fun hcon => Option.noConfusion hcon
  refine ⟨⟨?_, ?_, ?_⟩, ?_⟩
  · unfold pruneOrdersForBlockHeight
    rw [if_neg hcond, hrem]
  · unfold pruneOrdersForBlockHeight
    rw [if_neg hcond]
    simp [getOrderFillAmount, hrem, hfs]
  · unfold pruneOrdersForBlockHeight
    rw [if_neg hcond]
    simp
  · intro t height htnone
    unfold pruneOrdersForBlockHeight
    rw [if_pos htnone]
    exact ⟨rfl, rfl⟩

theorem pruneOrders_bumped_height_survives_witness :
    (pruneOrdersForBlockHeight
        (bumpScenario emptyOrderStateStore ⟨⟨0, 0⟩, 0, 0, 0⟩ 100 10) 10).1 = []
    ∧ (pruneOrdersForBlockHeight emptyOrderStateStore 3).1 = []
    ∧ (pruneOrdersForBlockHeight emptyOrderStateStore 3).2 = emptyOrderStateStore :=
  ⟨(pruneOrders_bumped_height_survives emptyOrderStateStore ⟨⟨0, 0⟩, 0, 0, 0⟩ 100 10
      rfl).1.1,
   ((pruneOrders_bumped_height_survives emptyOrderStateStore ⟨⟨0, 0⟩, 0, 0, 0⟩ 100 10
      rfl).2 emptyOrderStateStore 3 rfl).1,
   ((pruneOrders_bumped_height_survives emptyOrderStateStore ⟨⟨0, 0⟩, 0, 0, 0⟩ 100 10
      rfl).2 emptyOrderStateStore 3 rfl).2⟩

/-! ### Claim C3 -/

theorem addOrdersForPruning_idem
    (s : OrderStateStore) (ids : List OrderId) (h : Nat)
    (hsorted : ((s.blockHeightToPotentiallyPrunableOrders h).getD []).Pairwise oidLt) :
    addOrdersForPruning (addOrdersForPruning s ids h) ids h
      = addOrdersForPruning s ids h := by
  unfold addOrdersForPruning
  refine OrderStateStore.ext rfl ?_
  funext hh
  by_cases hcase : hh = h
  · subst hcase
    simp only [eq_self_iff_true, if_true, Option.getD_some, Option.some_inj]
    exact addIdsToPrunable_idem hsorted
  · simp only [if_neg hcase]

theorem addOrdersForPruning_iterate
    (s : OrderStateStore) (ids : List OrderId) (h k : Nat)
    (hsorted : ((s.blockHeightToPotentiallyPrunableOrders h).getD []).Pairwise oidLt) :
    (fun t => addOrdersForPruning t ids h)^[k + 1] s = addOrdersForPruning s ids h := by
  induction k with
  | zero => rfl
  | succ n ih =>
      rw [Function.iterate_succ_apply', ih]
      exact addOrdersForPruning_idem s ids h hsorted

theorem addOrdersForPruning_dedup_state
    (s : OrderStateStore) (ids : List OrderId) (h : Nat)
    (hsorted : ((s.blockHeightToPotentiallyPrunableOrders h).getD []).Pairwise oidLt) :
    addOrdersForPruning s ids h = addOrdersForPruning s ids.dedup h := by
  unfold addOrdersForPruning
  refine OrderStateStore.ext rfl ?_
  funext hh
  by_cases hcase : hh = h
  · subst hcase
    simp only [eq_self_iff_true, if_true, Option.some_inj]
    exact addIdsToPrunable_dedup hsorted
  · simp only [if_neg hcase]

theorem addOrdersForPruning_perm_state
    (s : OrderStateStore) (ids ids' : List OrderId) (h : Nat)
    (hsorted : ((s.blockHeightToPotentiallyPrunableOrders h).getD []).Pairwise oidLt)
    (hperm : ids.Perm ids') :
    addOrdersForPruning s ids h = addOrdersForPruning s ids' h := by
  unfold addOrdersForPruning
  refine OrderStateStore.ext rfl ?_
  funext hh
  by_cases hcase : hh = h
  · subst hcase
    simp only [eq_self_iff_true, if_true, Option.some_inj]
    exact addIdsToPrunable_perm hsorted hperm
  · simp only [if_neg hcase]

/-- The concrete order id `A` of the spec's `[A, A, B, B]` example. -/
def orderIdA : OrderId := ⟨⟨0, 0⟩, 0, 0, 0⟩

/-- The concrete order id `B` of the spec's `[A, A, B, B]` example. -/
def orderIdB : OrderId := ⟨⟨1, 0⟩, 0, 0, 0⟩

/-- C3: `AddOrdersForPruning` collapses duplicate-laden order-id lists to one
entry per distinct order id at each height, in a deterministic sorted order
independent of call repetition and of the order of the ids in the list:
repeating the call any number of times equals one call, a call equals the call
on the deduplicated list, a permuted list gives the identical stored state,
the stored entry is strictly sorted and duplicate-free and holds exactly the
old ids plus the given ids, feeding `[A, A, B, B]` stores exactly `[A, B]`,
and pruning after the repeated duplicate-laden calls yields the same removed
set and state as pruning after a single call with the deduplicated list. -/
theorem addOrdersForPruning_dedup_deterministic
    (s : OrderStateStore) (ids ids' : List OrderId) (h k : Nat)
    (hsorted : ((s.blockHeightToPotentiallyPrunableOrders h).getD []).Pairwise oidLt) :
    ((fun t => addOrdersForPruning t ids h)^[k + 1] s = addOrdersForPruning s ids h)
    ∧ (addOrdersForPruning s ids h = addOrdersForPruning s ids.dedup h)
    ∧ (ids.Perm ids' → addOrdersForPruning s ids h = addOrdersForPruning s ids' h)
    ∧ (∀ oid,
        oid ∈ (((addOrdersForPruning s ids h).blockHeightToPotentiallyPrunableOrders h).getD [])
          ↔ oid ∈ ((s.blockHeightToPotentiallyPrunableOrders h).getD []) ∨ oid ∈ ids)
    ∧ (((addOrdersForPruning s ids h).blockHeightToPotentiallyPrunableOrders h).getD []).Pairwise oidLt
    ∧ (((addOrdersForPruning s ids h).blockHeightToPotentiallyPrunableOrders h).getD []).Nodup
    ∧ (pruneOrdersForBlockHeight ((fun t => addOrdersForPruning t ids h)^[k + 1] s) h
        = pruneOrdersForBlockHeight (addOrdersForPruning s ids.dedup h) h)
    ∧ ((addOrdersForPruning emptyOrderStateStore [orderIdA, orderIdA, orderIdB, orderIdB]
          10).blockHeightToPotentiallyPrunableOrders 10 = some [orderIdA, orderIdB]) := by
  have hmem : ∀ oid,
      oid ∈ (((addOrdersForPruning s ids h).blockHeightToPotentiallyPrunableOrders h).getD [])
        ↔ oid ∈ ((s.blockHeightToPotentiallyPrunableOrders h).getD []) ∨ oid ∈ ids := by
    intro oid
    simp only [addOrdersForPruning, eq_self_iff_true, if_true, Option.getD_some]
    exact mem_addIdsToPrunable
  have hsorted' :
      (((addOrdersForPruning s ids h).blockHeightToPotentiallyPrunableOrders h).getD []).Pairwise oidLt := by
    simp only [addOrdersForPruning, eq_self_iff_true, if_true, Option.getD_some]
    exact sorted_addIdsToPrunable hsorted
  refine ⟨addOrdersForPruning_iterate s ids h k hsorted,
    addOrdersForPruning_dedup_state s ids h hsorted,
    addOrdersForPruning_perm_state s ids ids' h hsorted,
    hmem, hsorted', List.Pairwise.nodup hsorted', ?_, by decide⟩
  rw [addOrdersForPruning_iterate s ids h k hsorted,
    addOrdersForPruning_dedup_state s ids h hsorted]

theorem addOrdersForPruning_dedup_deterministic_witness :
    (addOrdersForPruning emptyOrderStateStore [orderIdA, orderIdA, orderIdB, orderIdB]
        10).blockHeightToPotentiallyPrunableOrders 10 = some [orderIdA, orderIdB]
    ∧ addOrdersForPruning emptyOrderStateStore [orderIdA, orderIdB] 10
        = addOrdersForPruning emptyOrderStateStore [orderIdB, orderIdA] 10 :=
  ⟨(addOrdersForPruning_dedup_deterministic emptyOrderStateStore [] [] 0 0
      (by simp [emptyOrderStateStore])).2.2.2.2.2.2.2,
   (addOrdersForPruning_dedup_deterministic emptyOrderStateStore
      [orderIdA, orderIdB] [orderIdB, orderIdA] 10 0
      (by simp [emptyOrderStateStore])).2.2.1 (List.Perm.swap orderIdB orderIdA [])⟩

/-! ## Error-message containment helper -/

/-- Does the character list `needle` occur at the start of `hay`? -/
def charsBeginWith : List Char → List Char → Bool
  | [], _ => true
  | _ :: _, [] => false
  | a :: as, b :: bs => a == b && charsBeginWith as bs

/-- Does `needle` occur anywhere inside `hay`? -/
def charsContain (needle : List Char) : List Char → Bool
  | [] => charsBeginWith needle []
  | c :: rest => charsBeginWith needle (c :: rest) || charsContain needle rest

/-- `strContains hay needle` holds when `needle` is a contiguous substring of
`hay`; used to state "returns an error containing ...". -/
def strContains (hay needle : String) : Bool :=
  charsContain needle.toList hay.toList

/-! ## Operations Decoder (app/process/transactions.go)

Modelled from the spec (§4.4): a proposal's transaction list must contain at
least the 3 designated transactions — operations first, add-premium-votes
second-to-last, update-market-prices last — with zero or more "other"
transactions between them. -/

/-- The message kinds relevant to proposal decoding. -/
inductive TxMsg
  | proposedOperations
  | addPremiumVotes
  | updateMarketPrices
  | bankSend
  | transfer
  deriving DecidableEq, Repr

/-- App-injected message types may only appear in their designated slots. -/
def TxMsg.isAppInjected : TxMsg → Bool
  | .proposedOperations => true
  | .addPremiumVotes => true
  | .updateMarketPrices => true
  | _ => false

/-- A raw transaction: either bytes that fail to decode (`none`) or a decoded
list of messages. -/
abbrev RawTx := Option (List TxMsg)

inductive ProcessError
  | unexpectedNumMsgs
  | decodingTxBytes
  | unexpectedMsgType
  deriving DecidableEq, Repr

/-- The decoded bundle produced by `DecodeProcessProposalTxs`. -/
structure ProcessProposalTxs where
  proposedOperationsTx : List TxMsg
  addPremiumVotesTx : List TxMsg
  updateMarketPricesTx : List TxMsg
  otherTxs : List (List TxMsg)
  deriving DecidableEq, Repr

/-- Modelled from the spec: a designated transaction must decode and consist of
exactly the expected message type; undecodable bytes are `DecodingTxBytes` and
any other content is `UnexpectedMsgType`. -/
def decodeSingleMsgTx (expected : TxMsg) (tx : RawTx) :
    Except ProcessError (List TxMsg) :=
  match tx with
  | none => .error .decodingTxBytes
  | some msgs => if msgs = [expected] then .ok msgs else .error .unexpectedMsgType

/-- Modelled from the spec: an "other" transaction must decode and must not
contain any app-injected message type. -/
def decodeOtherTx (tx : RawTx) : Except ProcessError (List TxMsg) :=
  match tx with
  | none => .error .decodingTxBytes
  | some msgs =>
      if msgs.any TxMsg.isAppInjected then .error .unexpectedMsgType else .ok msgs

def decodeOtherTxs : List RawTx → Except ProcessError (List (List TxMsg))
  | [] => .ok []
  | tx :: rest => do
      let m ← decodeOtherTx tx
      let ms ← decodeOtherTxs rest
      .ok (m :: ms)

/-- Modelled from the spec: `DecodeProcessProposalTxs` fails with
`UnexpectedNumMsgs` when the proposal holds fewer than 3 transactions, before
any content is examined; otherwise it decodes the operations transaction
(first), the add-premium-votes transaction (second-to-last), the
update-market-prices transaction (last) and the "other" transactions in
between. -/
def decodeProcessProposalTxs (txs : List RawTx) :
    Except ProcessError ProcessProposalTxs :=
  if txs.length < 3 then .error .unexpectedNumMsgs
  else do
    let ops ← decodeSingleMsgTx .proposedOperations (txs.headD none)
    let funding ← decodeSingleMsgTx .addPremiumVotes (txs.dropLast.getLastD none)
    let prices ← decodeSingleMsgTx .updateMarketPrices (txs.getLastD none)
    let others ← decodeOtherTxs ((txs.drop 1).dropLast.dropLast)
    .ok ⟨ops, funding, prices, others⟩

/-! ### Claim C5 -/

/-- C5: every proposal with fewer than 3 transactions fails decoding with
`UnexpectedNumMsgs` regardless of the content of those transactions, while a
proposal consisting of exactly the three designated transactions (operations,
add-premium-votes, update-market-prices, in that order) decodes
successfully. -/
theorem decodeProcessProposalTxs_min_three (txs : List RawTx)
    (hlen : txs.length < 3) :
    decodeProcessProposalTxs txs = .error .unexpectedNumMsgs
    ∧ decodeProcessProposalTxs
        [some [.proposedOperations], some [.addPremiumVotes], some [.updateMarketPrices]]
        = .ok ⟨[.proposedOperations], [.addPremiumVotes], [.updateMarketPrices], []⟩ := by
  refine ⟨?_, rfl⟩
  unfold decodeProcessProposalTxs
  rw [if_pos hlen]

theorem decodeProcessProposalTxs_min_three_witness :
    decodeProcessProposalTxs [some [.proposedOperations], some [.addPremiumVotes]]
      = .error .unexpectedNumMsgs :=
  (decodeProcessProposalTxs_min_three
    [some [.proposedOperations], some [.addPremiumVotes]] (by decide)).1

/-! ## ClobPair creation (x/clob/keeper/clob_pair.go) -/

inductive ClobPairStatus
  | unspecified
  | active
  | paused
  deriving DecidableEq, Repr

/-- Modelled from the spec: a tradable market. -/
structure ClobPair where
  id : Nat
  perpetualId : Nat
  stepBaseQuantums : Nat
  minOrderBaseQuantums : Nat
  quantumConversionExponent : Int
  subticksPerTick : Nat
  status : ClobPairStatus
  makerFeePpm : Nat
  takerFeePpm : Nat
  deriving DecidableEq, Repr

/-- The global max-fee bound (ppm) both fee rates must respect. -/
def maxFeePpm : Nat := 100000

inductive ClobError
  | invalidPerpetual
  | stepBaseQuantumsZero
  | minOrderBaseQuantumsZero
  | minOrderNotMultipleOfStep
  | subticksPerTickZero
  | statusUnspecified
  | makerFeeTooLarge
  | takerFeeTooLarge
  | makerFeeGreaterThanTakerFee
  | noClobPairForPerpetual
  | deleveragedSubaccountNotLiquidatable
  | statefulOrderDoesNotExist
  deriving DecidableEq, Repr

def clobErrMsg : ClobError → String
  | .invalidPerpetual => "ClobPair 0 has invalid perpetual."
  | .stepBaseQuantumsZero =>
      "invalid ClobPair parameter: StepBaseQuantums must be > 0."
  | .minOrderBaseQuantumsZero =>
      "invalid ClobPair parameter: MinOrderBaseQuantums must be > 0."
  | .minOrderNotMultipleOfStep =>
      "invalid ClobPair parameter: MinOrderBaseQuantums must be divisible by StepBaseQuantums."
  | .subticksPerTickZero =>
      "invalid ClobPair parameter: SubticksPerTick must be > 0."
  | .statusUnspecified =>
      "invalid ClobPair parameter: Status must be specified."
  | .makerFeeTooLarge =>
      "invalid ClobPair parameter: MakerFeePpm must be <= MaxFeePpm."
  | .takerFeeTooLarge =>
      "invalid ClobPair parameter: TakerFeePpm must be <= MaxFeePpm."
  | .makerFeeGreaterThanTakerFee =>
      "invalid ClobPair parameter: MakerFeePpm must be <= TakerFeePpm."
  | .noClobPairForPerpetual =>
      "Perpetual ID does not have an associated CLOB pair: NoClobPairForPerpetual"
  | .deleveragedSubaccountNotLiquidatable =>
      "Deleveraged subaccount in proposed match operation not liquidatable: DeleveragedSubaccountNotLiquidatable"
  | .statefulOrderDoesNotExist =>
      "Stateful order does not exist: StatefulOrderDoesNotExist"

/-- The clob keeper's durable state relevant to CLOB pair creation. -/
structure ClobKeeperState where
  perpetualIds : List Nat
  clobPairs : List (Nat × ClobPair)
  numClobPairs : Nat
  deriving DecidableEq, Repr

def getClobPair (s : ClobKeeperState) (id : Nat) : Option ClobPair :=
  (s.clobPairs.find? (fun p => p.1 == id)).map Prod.snd

def getNumClobPairs (s : ClobKeeperState) : Nat := s.numClobPairs

/-- Modelled from the spec: validation of a new CLOB pair — referenced
perpetual must exist, quantization parameters must be positive and coherent,
status must be specified, and fees must respect `maker ≤ taker ≤ max`. -/
def validateClobPair (s : ClobKeeperState) (c : ClobPair) : Option ClobError :=
  if ¬ s.perpetualIds.contains c.perpetualId then some .invalidPerpetual
  else if c.stepBaseQuantums = 0 then some .stepBaseQuantumsZero
  else if c.minOrderBaseQuantums = 0 then some .minOrderBaseQuantumsZero
  else if ¬ c.minOrderBaseQuantums % c.stepBaseQuantums = 0 then
    some .minOrderNotMultipleOfStep
  else if c.subticksPerTick = 0 then some .subticksPerTickZero
  else if c.status = .unspecified then some .statusUnspecified
  else if maxFeePpm < c.makerFeePpm then some .makerFeeTooLarge
  else if maxFeePpm < c.takerFeePpm then some .takerFeeTooLarge
  else if c.takerFeePpm < c.makerFeePpm then some .makerFeeGreaterThanTakerFee
  else none

/-- The CLOB pair `CreatePerpetualClobPair` builds: the next sequential id
plus the given parameters. -/
def buildClobPair (s : ClobKeeperState) (perpetualId stepBaseQuantums
    minOrderBaseQuantums : Nat) (quantumConversionExponent : Int)
    (subticksPerTick : Nat) (status : ClobPairStatus)
    (makerFeePpm takerFeePpm : Nat) : ClobPair :=
  ⟨s.numClobPairs, perpetualId, stepBaseQuantums, minOrderBaseQuantums,
    quantumConversionExponent, subticksPerTick, status, makerFeePpm, takerFeePpm⟩

/-- Modelled from the spec: `CreatePerpetualClobPair` builds the pair with the
next sequential id, validates it, and only on success stores it and increments
the stored pair count; on a validation error nothing is written. -/
def createPerpetualClobPair (s : ClobKeeperState) (perpetualId stepBaseQuantums
    minOrderBaseQuantums : Nat) (quantumConversionExponent : Int)
    (subticksPerTick : Nat) (status : ClobPairStatus)
    (makerFeePpm takerFeePpm : Nat) :
    Except ClobError (ClobPair × ClobKeeperState) :=
  match validateClobPair s (buildClobPair s perpetualId stepBaseQuantums
      minOrderBaseQuantums quantumConversionExponent subticksPerTick status
      makerFeePpm takerFeePpm) with
  | some e => .error e
  | none =>
      .ok (buildClobPair s perpetualId stepBaseQuantums minOrderBaseQuantums
          quantumConversionExponent subticksPerTick status makerFeePpm takerFeePpm,
        { s with
          clobPairs := s.clobPairs ++ [(s.numClobPairs,
            buildClobPair s perpetualId stepBaseQuantums minOrderBaseQuantums
              quantumConversionExponent subticksPerTick status makerFeePpm takerFeePpm)]
          numClobPairs := s.numClobPairs + 1 })

/-- The keeper state as seen by the caller after a `CreatePerpetualClobPair`
call: the updated state on success, the untouched state on error (nothing is
written before validation passes). -/
def createPerpetualClobPairState (s : ClobKeeperState) (perpetualId stepBaseQuantums
    minOrderBaseQuantums : Nat) (quantumConversionExponent : Int)
    (subticksPerTick : Nat) (status : ClobPairStatus)
    (makerFeePpm takerFeePpm : Nat) : ClobKeeperState :=
  match createPerpetualClobPair s perpetualId stepBaseQuantums minOrderBaseQuantums
      quantumConversionExponent subticksPerTick status makerFeePpm takerFeePpm with
  | .ok (_, s') => s'
  | .error _ => s

/-! ### Claim C6 -/

/-- C6: `CreatePerpetualClobPair` returns an error containing
"MinOrderBaseQuantums must be > 0" when `MinOrderBaseQuantums = 0`, an error
containing "must be <= TakerFeePpm" when `MakerFeePpm > TakerFeePpm`, and an
error containing "has invalid perpetual." when the referenced perpetual does
not exist; on any error nothing is stored and the stored pair count is
unchanged, while on success the stored pair count increments by exactly 1 and
the created pair is retrievable from the store unchanged. -/
theorem createPerpetualClobPair_validation :
    (∀ (s : ClobKeeperState) (perpId step minQ : Nat) (qce : Int) (subticks : Nat)
        (status : ClobPairStatus) (mf tf : Nat),
      s.perpetualIds.contains perpId = false →
        createPerpetualClobPair s perpId step minQ qce subticks status mf tf
            = .error .invalidPerpetual
          ∧ strContains (clobErrMsg .invalidPerpetual) "has invalid perpetual." = true)
    ∧ (∀ (s : ClobKeeperState) (perpId step : Nat) (qce : Int) (subticks : Nat)
        (status : ClobPairStatus) (mf tf : Nat),
      s.perpetualIds.contains perpId = true → step ≠ 0 →
        createPerpetualClobPair s perpId step 0 qce subticks status mf tf
            = .error .minOrderBaseQuantumsZero
          ∧ strContains (clobErrMsg .minOrderBaseQuantumsZero)
              "MinOrderBaseQuantums must be > 0" = true)
    ∧ (∀ (s : ClobKeeperState) (perpId step minQ : Nat) (qce : Int) (subticks : Nat)
        (status : ClobPairStatus) (mf tf : Nat),
      s.perpetualIds.contains perpId = true → step ≠ 0 → minQ ≠ 0 →
      minQ % step = 0 → subticks ≠ 0 → status ≠ .unspecified →
      mf ≤ maxFeePpm → tf ≤ maxFeePpm → tf < mf →
        createPerpetualClobPair s perpId step minQ qce subticks status mf tf
            = .error .makerFeeGreaterThanTakerFee
          ∧ strContains (clobErrMsg .makerFeeGreaterThanTakerFee)
              "must be <= TakerFeePpm" = true)
    ∧ (∀ (s : ClobKeeperState) (perpId step minQ : Nat) (qce : Int) (subticks : Nat)
        (status : ClobPairStatus) (mf tf : Nat) (e : ClobError),
      createPerpetualClobPair s perpId step minQ qce subticks status mf tf
          = .error e →
        createPerpetualClobPairState s perpId step minQ qce subticks status mf tf = s)
    ∧ (∀ (s : ClobKeeperState) (perpId step minQ : Nat) (qce : Int) (subticks : Nat)
        (status : ClobPairStatus) (mf tf : Nat) (c : ClobPair) (s' : ClobKeeperState),
      createPerpetualClobPair s perpId step minQ qce subticks status mf tf
          = .ok (c, s') →
      (∀ p ∈ s.clobPairs, p.1 < s.numClobPairs) →
        getNumClobPairs s' = getNumClobPairs s + 1
          ∧ getClobPair s' c.id = some c
          ∧ createPerpetualClobPairState s perpId step minQ qce subticks status mf tf
              = s') := by
  refine ⟨?_, ?_, ?_, ?_, ?_⟩
  · intro s perpId step minQ qce subticks status mf tf hcon
    have hcon' : perpId ∉ s.perpetualIds := by simpa using hcon
    exact ⟨by simp [createPerpetualClobPair, validateClobPair, buildClobPair, hcon'], by decide⟩
  · intro s perpId step qce subticks status mf tf hcon hstep
    have hcon' : perpId ∈ s.perpetualIds := by simpa using hcon
    exact ⟨by simp [createPerpetualClobPair, validateClobPair, buildClobPair, hcon', hstep], by decide⟩
  · intro s perpId step minQ qce subticks status mf tf hcon hstep hmin hdvd hsub hst hmf htf hlt
    have hcon' : perpId ∈ s.perpetualIds := by simpa using hcon
    refine ⟨?_, by decide⟩
    simp [createPerpetualClobPair, validateClobPair, buildClobPair, hcon', hstep, hmin,
      hdvd, hsub, hst, Nat.not_lt.mpr hmf, Nat.not_lt.mpr htf, hlt]
  · intro s perpId step minQ qce subticks status mf tf e herr
    unfold createPerpetualClobPairState
    rw [herr]
  · intro s perpId step minQ qce subticks status mf tf c s' hok hkeys
    unfold createPerpetualClobPair at hok
    cases hv : validateClobPair s
        (buildClobPair s perpId step minQ qce subticks status mf tf) with
    | some e => rw [hv] at hok; cases hok
    | none =>
        rw [hv] at hok
        simp only [Except.ok.injEq, Prod.mk.injEq] at hok
        obtain ⟨hc, hs'⟩ := hok
        subst hc
        subst hs'
        refine ⟨rfl, ?_, ?_⟩
        · unfold getClobPair
          simp only [List.find?_append]
          have hnone : s.clobPairs.find?
              (fun p => p.1 == (buildClobPair s perpId step minQ qce subticks status
                mf tf).id) = none := by
            rw [List.find?_eq_none]
            intro p hp
            simpa [buildClobPair] using Nat.ne_of_lt (hkeys p hp)
          rw [hnone]
          simp [buildClobPair]
        · unfold createPerpetualClobPairState createPerpetualClobPair
          rw [hv]

theorem createPerpetualClobPair_validation_witness :
    (createPerpetualClobPair ⟨[0], [], 0⟩ 1000000 5 10 0 5 .active 200 500
        = .error .invalidPerpetual)
    ∧ (createPerpetualClobPair ⟨[0], [], 0⟩ 0 5 0 0 5 .active 200 500
        = .error .minOrderBaseQuantumsZero)
    ∧ (createPerpetualClobPair ⟨[0], [], 0⟩ 0 5 10 0 5 .active 100 10
        = .error .makerFeeGreaterThanTakerFee)
    ∧ (createPerpetualClobPairState ⟨[0], [], 0⟩ 0 5 0 0 5 .active 200 500 = ⟨[0], [], 0⟩)
    ∧ (getNumClobPairs ⟨[0], [(0, ⟨0, 0, 5, 10, 0, 5, .active, 200, 500⟩)], 1⟩
          = getNumClobPairs ⟨[0], [], 0⟩ + 1
        ∧ getClobPair ⟨[0], [(0, ⟨0, 0, 5, 10, 0, 5, .active, 200, 500⟩)], 1⟩
            (ClobPair.id ⟨0, 0, 5, 10, 0, 5, .active, 200, 500⟩)
            = some ⟨0, 0, 5, 10, 0, 5, .active, 200, 500⟩
        ∧ createPerpetualClobPairState ⟨[0], [], 0⟩ 0 5 10 0 5 .active 200 500
            = ⟨[0], [(0, ⟨0, 0, 5, 10, 0, 5, .active, 200, 500⟩)], 1⟩) :=
  ⟨(createPerpetualClobPair_validation.1 ⟨[0], [], 0⟩ 1000000 5 10 0 5 .active 200 500
      (by decide)).1,
   (createPerpetualClobPair_validation.2.1 ⟨[0], [], 0⟩ 0 5 0 5 .active 200 500
      (by decide) (by decide)).1,
   (createPerpetualClobPair_validation.2.2.1 ⟨[0], [], 0⟩ 0 5 10 0 5 .active 100 10
      (by decide) (by decide) (by decide) (by decide) (by decide) (by decide)
      (by decide) (by decide) (by decide)).1,
   createPerpetualClobPair_validation.2.2.2.1 ⟨[0], [], 0⟩ 0 5 0 0 5 .active 200 500
      .minOrderBaseQuantumsZero rfl,
   createPerpetualClobPair_validation.2.2.2.2 ⟨[0], [], 0⟩ 0 5 10 0 5 .active 200 500
      ⟨0, 0, 5, 10, 0, 5, .active, 200, 500⟩
      ⟨[0], [(0, ⟨0, 0, 5, 10, 0, 5, .active, 200, 500⟩)], 1⟩ rfl
      (by intro p hp; cases hp)⟩

/-! ## MemClob order books and initialization -/

/-- The in-memory order book collection: which perpetual ids currently have an
initialized book, and the CLOB pair id each one maps to. -/
structure MemClob where
  perpetualToClobPairId : Nat → Option Nat

def emptyMemClob : MemClob := ⟨fun _ => none⟩

/-- Modelled from the spec: `GetClobPairForPerpetual(perpetualId)` fails with
`NoClobPairForPerpetual` when the perpetual has no associated *initialized*
order book. -/
def getClobPairForPerpetual (m : MemClob) (perpetualId : Nat) :
    Except ClobError Nat :=
  match m.perpetualToClobPairId perpetualId with
  | some clobPairId => .ok clobPairId
  | none => .error .noClobPairForPerpetual

/-- Modelled from the spec: creating an order book for a CLOB pair makes its
perpetual tradable. -/
def createOrderbook (m : MemClob) (c : ClobPair) : MemClob :=
  ⟨fun p => if p = c.perpetualId then some c.id else m.perpetualToClobPairId p⟩

/-- The durable CLOB pair store plus the in-memory book collection. -/
structure ClobKeeperWithMemClob where
  store : List (Nat × ClobPair)
  memClob : MemClob

/-- Modelled from the spec: `InitMemClobOrderbooks` initializes an order book
from every persisted ClobPair record. -/
def initMemClobOrderbooks (s : ClobKeeperWithMemClob) : ClobKeeperWithMemClob :=
  { s with memClob := s.store.foldl (fun m p => createOrderbook m p.2) s.memClob }

theorem foldl_createOrderbook_isSome (l : List (Nat × ClobPair)) (m : MemClob)
    (p : Nat)
    (h : (∃ e ∈ l, e.2.perpetualId = p) ∨ (m.perpetualToClobPairId p).isSome = true) :
    ((l.foldl (fun m e => createOrderbook m e.2) m).perpetualToClobPairId p).isSome
      = true := by
  induction l generalizing m with
  | nil =>
      rcases h with ⟨e, he, _⟩ | h
      · cases he
      · simpa using h
  | cons e es ih =>
      simp only [List.foldl_cons]
      refine ih (createOrderbook m e.2) ?_
      rcases h with ⟨e', he', hpe⟩ | hm
      · rcases List.mem_cons.mp he' with he' | he'
        · subst he'
          right
          simp [createOrderbook, hpe.symm]
        · exact Or.inl ⟨e', he', hpe⟩
      · right
        unfold createOrderbook
        by_cases hc : p = e.2.perpetualId
        · simp [hc]
        · simpa [hc] using hm

/-! ### Claim C9 -/

/-- C9: `GetClobPairForPerpetual` fails with the `NoClobPairForPerpetual`
error whenever no initialized order book exists for the perpetual — the
durable store's content is irrelevant, so in particular a ClobPair already
written to storage does not help — and after `InitMemClobOrderbooks` runs over
the persisted ClobPair records the lookup succeeds for every perpetual with a
stored pair. -/
theorem getClobPairForPerpetual_requires_initialized_book :
    (∀ (s : ClobKeeperWithMemClob) (p : Nat),
      s.memClob.perpetualToClobPairId p = none →
        getClobPairForPerpetual s.memClob p = .error .noClobPairForPerpetual
          ∧ strContains (clobErrMsg .noClobPairForPerpetual)
              "NoClobPairForPerpetual" = true)
    ∧ (∀ (s : ClobKeeperWithMemClob) (p : Nat),
        (∃ e ∈ s.store, e.2.perpetualId = p) →
          ∃ clobPairId,
            getClobPairForPerpetual (initMemClobOrderbooks s).memClob p
              = .ok clobPairId) := by
  constructor
  · intro s p hnone
    refine ⟨?_, by decide⟩
    unfold getClobPairForPerpetual
    rw [hnone]
  · intro s p hstored
    have hsome := foldl_createOrderbook_isSome s.store s.memClob p (Or.inl hstored)
    unfold initMemClobOrderbooks getClobPairForPerpetual
    cases hcase : ((s.store.foldl (fun m e => createOrderbook m e.2)
        s.memClob).perpetualToClobPairId p) with
    | none => rw [hcase] at hsome; cases hsome
    | some cid => exact ⟨cid, rfl⟩

theorem getClobPairForPerpetual_requires_initialized_book_witness :
    (getClobPairForPerpetual emptyMemClob 1 = .error .noClobPairForPerpetual)
    ∧ (∃ clobPairId,
        getClobPairForPerpetual
          (initMemClobOrderbooks
            ⟨[(1, ⟨1, 1, 5, 10, 0, 5, .active, 200, 500⟩)], emptyMemClob⟩).memClob 1
          = .ok clobPairId) :=
  ⟨(getClobPairForPerpetual_requires_initialized_book.1
      ⟨[(1, ⟨1, 1, 5, 10, 0, 5, .active, 200, 500⟩)], emptyMemClob⟩ 1 rfl).1,
   getClobPairForPerpetual_requires_initialized_book.2
      ⟨[(1, ⟨1, 1, 5, 10, 0, 5, .active, 200, 500⟩)], emptyMemClob⟩ 1
      ⟨(1, ⟨1, 1, 5, 10, 0, 5, .active, 200, 500⟩), by simp, rfl⟩⟩

/-! ## Proposer-Operations Processor

Modelled from the spec (§4.5): the consensus-critical replay of a block's
internal operations against the Subaccount Ledger and stateful-order store. -/

inductive OrderSide
  | buy
  | sell
  deriving DecidableEq, Repr

/-- Modelled from the spec: an order — id, side, size in base quantums, price
in subticks, good-til field. -/
structure Order where
  orderId : OrderId
  side : OrderSide
  quantums : Nat
  subticks : Nat
  goodTil : Nat
  deriving DecidableEq, Repr

/-- One maker fill of a match operation. -/
structure MakerFill where
  makerOrderId : OrderId
  fillAmount : Nat
  deriving DecidableEq, Repr

structure MatchPerpetualLiquidation where
  liquidated : SubaccountId
  clobPairId : Nat
  perpetualId : Nat
  isBuy : Bool
  fills : List MakerFill
  deriving DecidableEq, Repr

structure MatchPerpetualDeleveragingFill where
  offsettingSubaccountId : SubaccountId
  fillAmount : Nat
  deriving DecidableEq, Repr

structure MatchPerpetualDeleveraging where
  liquidated : SubaccountId
  perpetualId : Nat
  fills : List MatchPerpetualDeleveragingFill
  deriving DecidableEq, Repr

/-- Modelled from the spec: the canonical, order-preserving, replayable
internal operation, a tagged union over the six operation kinds. -/
inductive InternalOperation
  | shortTermOrderPlacement (order : Order)
  | preexistingStatefulOrderPlacement (orderId : OrderId)
  | matchOrders (takerOrderId : OrderId) (fills : List MakerFill)
  | matchPerpetualLiquidation (m : MatchPerpetualLiquidation)
  | matchPerpetualDeleveraging (m : MatchPerpetualDeleveraging)
  | orderRemoval (orderId : OrderId) (reason : Nat)
  deriving DecidableEq, Repr

/-- A subaccount's balances: quote asset quantums plus perpetual positions
(perpetual id, signed base quantums). -/
structure Subaccount where
  quoteBalance : Int
  positions : List (Nat × Int)
  deriving DecidableEq, Repr

def positionQuantums (a : Subaccount) (perpetualId : Nat) : Int :=
  match a.positions.find? (fun p => p.1 == perpetualId) with
  | some p => p.2
  | none => 0

/-- Add `delta` base quantums of the given perpetual to the subaccount's
position, dropping the entry when it reaches zero. -/
def updatePosition (a : Subaccount) (perpetualId : Nat) (delta : Int) : Subaccount :=
  let q := positionQuantums a perpetualId + delta
  { a with positions :=
      (a.positions.filter (fun p => ¬ p.1 == perpetualId))
        ++ (if q = 0 then [] else [(perpetualId, q)]) }

/-- The consensus state the processor replays against, together with the
read-only price / margin-parameter / fee context. -/
structure ProcessingState where
  subaccounts : SubaccountId → Subaccount
  statefulOrderPlacements : OrderId → Option Order
  oraclePrice : Nat → Nat
  maintenanceMarginPpm : Nat → Nat
  makerFeePpm : Int
  takerFeePpm : Int

/-- Net collateral of a subaccount: quote balance plus the oracle value of
every perpetual position. -/
def netCollateral (s : ProcessingState) (a : Subaccount) : Int :=
  a.quoteBalance
    + a.positions.foldl (fun acc p => acc + p.2 * (s.oraclePrice p.1 : Int)) 0

/-- Maintenance margin requirement: the maintenance fraction (ppm) of the
absolute notional of every position. -/
def maintenanceMarginRequirement (s : ProcessingState) (a : Subaccount) : Int :=
  a.positions.foldl
    (fun acc p =>
      acc + |p.2| * (s.oraclePrice p.1 : Int) * (s.maintenanceMarginPpm p.1 : Int)
        / 1000000)
    0

/-- Modelled from the spec: a subaccount is liquidatable when its net
collateral is below its maintenance margin requirement. -/
def isLiquidatable (s : ProcessingState) (aid : SubaccountId) : Bool :=
  netCollateral s (s.subaccounts aid)
    < maintenanceMarginRequirement s (s.subaccounts aid)

/-- `round_half_away_from_zero(n / d)` for positive `d`. -/
def roundHalfAwayFromZero (n d : Int) : Int :=
  if 0 ≤ n then (n + d / 2) / d else -((-n + d / 2) / d)

/-- Modelled from the spec:
`fee = round_half_away_from_zero(fillQuoteQuantums * feePpm / 1000000)`. -/
def feeAmount (fillQuoteQuantums ppm : Int) : Int :=
  roundHalfAwayFromZero (fillQuoteQuantums * ppm) 1000000

/-- Update one subaccount in the ledger. -/
def setSubaccount (s : ProcessingState) (aid : SubaccountId) (a : Subaccount) :
    ProcessingState :=
  { s with subaccounts := fun i => if i = aid then a else s.subaccounts i }

/-- Apply one fill between a taker and a maker at the maker's subticks: move
position quantums and quote quantums between the two subaccounts of the fill's
perpetual (the order's clob pair id doubles as the perpetual id here), then
charge each side its fee. -/
def applyMatchFill (s : ProcessingState) (taker maker : Order)
    (fillAmount : Nat) : ProcessingState :=
  let perpetualId := maker.orderId.clobPairId
  let fillQuote : Int := (fillAmount : Int) * (maker.subticks : Int)
  let takerFee := feeAmount fillQuote s.takerFeePpm
  let makerFee := feeAmount fillQuote s.makerFeePpm
  let takerSign : Int := if taker.side = .buy then 1 else -1
  let ta := s.subaccounts taker.orderId.subaccountId
  let s₁ := setSubaccount s taker.orderId.subaccountId
    (updatePosition
      { ta with quoteBalance := ta.quoteBalance - takerSign * fillQuote - takerFee }
      perpetualId (takerSign * (fillAmount : Int)))
  let ma := s₁.subaccounts maker.orderId.subaccountId
  setSubaccount s₁ maker.orderId.subaccountId
    (updatePosition
      { ma with quoteBalance := ma.quoteBalance + takerSign * fillQuote - makerFee }
      perpetualId (-takerSign * (fillAmount : Int)))

/-- Apply one deleveraging fill at the liquidated subaccount's bankruptcy
price: transfer `fillAmount` of the position from the liquidated subaccount to
the offsetting subaccount together with the pro-rata share of the liquidated
subaccount's quote balance. -/
def applyDeleveragingFill (s : ProcessingState) (liquidated : SubaccountId)
    (perpetualId : Nat) (f : MatchPerpetualDeleveragingFill) : ProcessingState :=
  let la := s.subaccounts liquidated
  let pos := positionQuantums la perpetualId
  let sign : Int := if 0 ≤ pos then 1 else -1
  let quoteDelta : Int :=
    if pos = 0 then 0 else la.quoteBalance * (f.fillAmount : Int) / |pos|
  let s₁ := setSubaccount s liquidated
    (updatePosition { la with quoteBalance := la.quoteBalance - quoteDelta }
      perpetualId (-sign * (f.fillAmount : Int)))
  let oa := s₁.subaccounts f.offsettingSubaccountId
  setSubaccount s₁ f.offsettingSubaccountId
    (updatePosition { oa with quoteBalance := oa.quoteBalance + quoteDelta }
      perpetualId (sign * (f.fillAmount : Int)))

/-- The per-block in-memory matching context: the orders made referenceable by
placement operations earlier in the block, keyed by order id. -/
structure BlockContext where
  ordersInBlock : OrderId → Option Order

def emptyBlockContext : BlockContext := ⟨fun _ => none⟩

def addOrderToBlock (ctx : BlockContext) (o : Order) : BlockContext :=
  ⟨fun i => if i = o.orderId then some o else ctx.ordersInBlock i⟩

/-- Modelled from the spec (§4.5): replay of one internal operation.
Short-term placements only extend the in-block matching context; preexisting
stateful placements look up the persisted order; matches apply each maker fill
in order; a deleveraging match re-checks liquidatability and aborts with
`DeleveragedSubaccountNotLiquidatable` when the subaccount is healthy; an
order removal deletes the persisted placement. -/
def processOperation (ctx : BlockContext) (s : ProcessingState) :
    InternalOperation → Except ClobError (BlockContext × ProcessingState)
  | .shortTermOrderPlacement o => .ok (addOrderToBlock ctx o, s)
  | .preexistingStatefulOrderPlacement oid =>
      match s.statefulOrderPlacements oid with
      | some o => .ok (addOrderToBlock ctx o, s)
      | none => .error .statefulOrderDoesNotExist
  | .matchOrders takerOrderId fills =>
      match ctx.ordersInBlock takerOrderId with
      | none => .error .statefulOrderDoesNotExist
      | some taker =>
          (fills.foldlM (fun (st : ProcessingState) (f : MakerFill) =>
              match ctx.ordersInBlock f.makerOrderId with
              | none =>
                  (Except.error ClobError.statefulOrderDoesNotExist :
                    Except ClobError ProcessingState)
              | some maker =>
                  Except.ok (applyMatchFill st taker maker f.fillAmount)) s).map
            (fun s' => (ctx, s'))
  | .matchPerpetualLiquidation m =>
      (m.fills.foldlM (fun (st : ProcessingState) (f : MakerFill) =>
          match ctx.ordersInBlock f.makerOrderId with
          | none =>
              (Except.error ClobError.statefulOrderDoesNotExist :
                Except ClobError ProcessingState)
          | some maker =>
              Except.ok (applyMatchFill st
                ⟨⟨m.liquidated, 0, 0, m.clobPairId⟩,
                  if m.isBuy then .buy else .sell, 0, maker.subticks, 0⟩
                maker f.fillAmount)) s).map
        (fun s' => (ctx, s'))
  | .matchPerpetualDeleveraging m =>
      if isLiquidatable s m.liquidated then
        .ok (ctx, m.fills.foldl
          (fun st f => applyDeleveragingFill st m.liquidated m.perpetualId f) s)
      else .error .deleveragedSubaccountNotLiquidatable
  | .orderRemoval oid _reason =>
      .ok (ctx, { s with statefulOrderPlacements := fun i =>
        if i = oid then none else s.statefulOrderPlacements i })

/-- Replay a list of internal operations in order, aborting on the first
error. -/
def processOperations (ctx : BlockContext) (s : ProcessingState) :
    List InternalOperation → Except ClobError (BlockContext × ProcessingState)
  | [] => .ok (ctx, s)
  | op :: rest =>
      match processOperation ctx s op with
      | .ok p => processOperations p.1 p.2 rest
      | .error e => .error e

/-- Modelled from the spec: the per-block summary assembled after replay. -/
structure ProcessProposerMatchesEvents where
  placedStatefulOrders : List Order
  expiredStatefulOrderIds : List OrderId
  ordersIdsFilledInLastBlock : List OrderId
  placedStatefulCancellations : List OrderId
  removedStatefulOrderIds : List OrderId
  blockHeight : Nat
  deriving DecidableEq, Repr

/-- Modelled from the spec: walk the operations in their proposed order; each
order match appends its taker order id and then each maker order id in fill
order to the filled list (a liquidation match has no taker order id, a
deleveraging match has no order ids at all), and each order removal records
the removed id into the deterministic sorted set of removed stateful order
ids. -/
def generateEventsStep (ev : ProcessProposerMatchesEvents)
    (op : InternalOperation) : ProcessProposerMatchesEvents :=
  match op with
  | .matchOrders takerOrderId fills =>
      { ev with ordersIdsFilledInLastBlock :=
          ev.ordersIdsFilledInLastBlock
            ++ takerOrderId :: fills.map MakerFill.makerOrderId }
  | .matchPerpetualLiquidation m =>
      { ev with ordersIdsFilledInLastBlock :=
          ev.ordersIdsFilledInLastBlock ++ m.fills.map MakerFill.makerOrderId }
  | .orderRemoval oid _ =>
      { ev with removedStatefulOrderIds :=
          insertPrunableOrderId oid ev.removedStatefulOrderIds }
  | _ => ev

/-- Modelled from the spec: the per-block summary is the events-summary walk
over all operations, starting from the empty summary at the block height. -/
def generateProcessProposerMatchesEvents (operations : List InternalOperation)
    (blockHeight : Nat) : ProcessProposerMatchesEvents :=
  operations.foldl generateEventsStep ⟨[], [], [], [], [], blockHeight⟩

/-- Modelled from the spec: the top-level state-transition function — replay
all operations and, on success, assemble the `ProcessProposerMatchesEvents`
summary; any operation failure aborts the whole call. -/
def processProposerOperations (s : ProcessingState)
    (operations : List InternalOperation) (blockHeight : Nat) :
    Except ClobError (ProcessProposerMatchesEvents × ProcessingState) :=
  match processOperations emptyBlockContext s operations with
  | .ok (_, s') => .ok (generateProcessProposerMatchesEvents operations blockHeight, s')
  | .error e => .error e

/-- The state the block-processing caller commits: the replayed state on
success, the untouched pre-block state on error (the aborted transaction's
writes are discarded). -/
def committedState (s : ProcessingState) (operations : List InternalOperation)
    (blockHeight : Nat) : ProcessingState :=
  match processProposerOperations s operations blockHeight with
  | .ok (_, s') => s'
  | .error _ => s

def resultError {α : Type} : Except ClobError α → Option ClobError
  | .ok _ => none
  | .error e => some e

/-- The events of a successful run, if any. -/
def resultEvents (s : ProcessingState) (operations : List InternalOperation)
    (blockHeight : Nat) : Option ProcessProposerMatchesEvents :=
  match processProposerOperations s operations blockHeight with
  | .ok (ev, _) => some ev
  | .error _ => none

/-- The filled-order-id contribution of a single operation as the spec states
it: taker order id first, then each maker order id in fill order; a
liquidation match contributes only its maker order ids; all other operations
contribute nothing. -/
def fillIdsOfOperation : InternalOperation → List OrderId
  | .matchOrders takerOrderId fills =>
      takerOrderId :: fills.map MakerFill.makerOrderId
  | .matchPerpetualLiquidation m => m.fills.map MakerFill.makerOrderId
  | _ => []

/-- The removed order ids referenced by removal operations, in proposal
order. -/
def removalIdsOfOperations (operations : List InternalOperation) : List OrderId :=
  operations.flatMap (fun op =>
    match op with
    | .orderRemoval oid _ => [oid]
    | _ => [])

theorem generateEvents_foldl_filled (operations : List InternalOperation)
    (ev : ProcessProposerMatchesEvents) :
    (operations.foldl generateEventsStep ev).ordersIdsFilledInLastBlock
      = ev.ordersIdsFilledInLastBlock
          ++ operations.flatMap fillIdsOfOperation := by
  induction operations generalizing ev with
  | nil => simp
  | cons op rest ih =>
      simp only [List.foldl_cons, List.flatMap_cons, ih]
      cases op <;> simp [generateEventsStep, fillIdsOfOperation]

theorem generateEvents_foldl_removed (operations : List InternalOperation)
    (ev : ProcessProposerMatchesEvents) :
    (operations.foldl generateEventsStep ev).removedStatefulOrderIds
      = addIdsToPrunable ev.removedStatefulOrderIds
          (removalIdsOfOperations operations) := by
  induction operations generalizing ev with
  | nil => simp [removalIdsOfOperations, addIdsToPrunable]
  | cons op rest ih =>
      simp only [List.foldl_cons, removalIdsOfOperations, List.flatMap_cons, ih]
      cases op <;>
        simp [generateEventsStep, removalIdsOfOperations, addIdsToPrunable]

/-! ### Claim C7 -/

/-- C7: the `OrdersIdsFilledInLastBlock` list of the block's
`ProcessProposerMatchesEvents` is exactly the concatenation, over the
operations in their proposed order, of each operation's contribution; an
`OrderMatch` contributes its taker order id first and then each maker order id
in fill order, a `PerpetualLiquidationMatch` contributes its maker order ids
in fill order, and no other operation contributes. -/
theorem ordersIdsFilledInLastBlock_fill_order
    (operations : List InternalOperation) (blockHeight : Nat) :
    (generateProcessProposerMatchesEvents operations blockHeight).ordersIdsFilledInLastBlock
        = operations.flatMap fillIdsOfOperation
    ∧ (∀ (takerOrderId : OrderId) (fills : List MakerFill),
        fillIdsOfOperation (.matchOrders takerOrderId fills)
          = takerOrderId :: fills.map MakerFill.makerOrderId)
    ∧ (∀ m : MatchPerpetualLiquidation,
        fillIdsOfOperation (.matchPerpetualLiquidation m)
          = m.fills.map MakerFill.makerOrderId)
    ∧ (∀ o, fillIdsOfOperation (.shortTermOrderPlacement o) = [])
    ∧ (∀ oid, fillIdsOfOperation (.preexistingStatefulOrderPlacement oid) = [])
    ∧ (∀ m, fillIdsOfOperation (.matchPerpetualDeleveraging m) = [])
    ∧ (∀ oid r, fillIdsOfOperation (.orderRemoval oid r) = []) := by
  refine ⟨?_, fun _ _ => rfl, fun _ => rfl, fun _ => rfl, fun _ => rfl,
    fun _ => rfl, fun _ _ => rfl⟩
  unfold generateProcessProposerMatchesEvents
  rw [generateEvents_foldl_filled]
  rfl

/-! ### Frame lemmas: replay never resurrects a deleted stateful placement -/

theorem foldlM_matchFills_placements
    (step : ProcessingState → MakerFill → Except ClobError ProcessingState)
    (hstep : ∀ st f st', step st f = .ok st' →
      st'.statefulOrderPlacements = st.statefulOrderPlacements) :
    ∀ (fills : List MakerFill) (st st' : ProcessingState),
      fills.foldlM step st = .ok st' →
        st'.statefulOrderPlacements = st.statefulOrderPlacements := by
  intro fills
  induction fills with
  | nil =>
      intro st st' hfold
      simp only [List.foldlM_nil] at hfold
      cases hfold
      rfl
  | cons f fs ih =>
      intro st st' hfold
      rw [List.foldlM_cons] at hfold
      cases hcase : step st f with
      | error e => rw [hcase] at hfold; cases hfold
      | ok st₁ =>
          rw [hcase] at hfold
          exact (ih st₁ st' hfold).trans (hstep st f st₁ hcase)

theorem foldl_deleveragingFills_placements (liquidated : SubaccountId)
    (perpetualId : Nat) :
    ∀ (fills : List MatchPerpetualDeleveragingFill) (st : ProcessingState),
      (fills.foldl
          (fun st f => applyDeleveragingFill st liquidated perpetualId f)
          st).statefulOrderPlacements
        = st.statefulOrderPlacements := by
  intro fills
  induction fills with
  | nil => intro st; rfl
  | cons f fs ih => intro st; exact ih (applyDeleveragingFill st liquidated perpetualId f)

theorem processOperation_placements_preserve_none
    (ctx : BlockContext) (s : ProcessingState) (op : InternalOperation)
    (q : BlockContext × ProcessingState)
    (hop : processOperation ctx s op = .ok q)
    (oid : OrderId) (hnone : s.statefulOrderPlacements oid = none) :
    q.2.statefulOrderPlacements oid = none := by
  cases op with
  | shortTermOrderPlacement o =>
      cases hop
      exact hnone
  | preexistingStatefulOrderPlacement oid' =>
      simp only [processOperation] at hop
      cases hcase : s.statefulOrderPlacements oid' with
      | none => rw [hcase] at hop; cases hop
      | some o =>
          rw [hcase] at hop
          cases hop
          exact hnone
  | matchOrders takerOrderId fills =>
      simp only [processOperation] at hop
      cases hcase : ctx.ordersInBlock takerOrderId with
      | none => rw [hcase] at hop; cases hop
      | some taker =>
          rw [hcase] at hop
          dsimp only at hop
          cases hfold : fills.foldlM (fun (st : ProcessingState) (f : MakerFill) =>
              match ctx.ordersInBlock f.makerOrderId with
              | none =>
                  (Except.error ClobError.statefulOrderDoesNotExist :
                    Except ClobError ProcessingState)
              | some maker =>
                  Except.ok (applyMatchFill st taker maker f.fillAmount)) s with
          | error e => rw [hfold] at hop; cases hop
          | ok s' =>
              rw [hfold] at hop
              cases hop
              have := foldlM_matchFills_placements _ ?_ fills s s' hfold
              · rw [this]; exact hnone
              · intro st f st' hstep
                cases hmk : ctx.ordersInBlock f.makerOrderId with
                | none => rw [hmk] at hstep; cases hstep
                | some maker => rw [hmk] at hstep; cases hstep; rfl
  | matchPerpetualLiquidation m =>
      simp only [processOperation] at hop
      cases hfold : m.fills.foldlM (fun (st : ProcessingState) (f : MakerFill) =>
          match ctx.ordersInBlock f.makerOrderId with
          | none =>
              (Except.error ClobError.statefulOrderDoesNotExist :
                Except ClobError ProcessingState)
          | some maker =>
              Except.ok (applyMatchFill st
                ⟨⟨m.liquidated, 0, 0, m.clobPairId⟩,
                  if m.isBuy then .buy else .sell, 0, maker.subticks, 0⟩
                maker f.fillAmount)) s with
      | error e => rw [hfold] at hop; cases hop
      | ok s' =>
          rw [hfold] at hop
          cases hop
          have := foldlM_matchFills_placements _ ?_ m.fills s s' hfold
          · rw [this]; exact hnone
          · intro st f st' hstep
            cases hmk : ctx.ordersInBlock f.makerOrderId with
            | none => rw [hmk] at hstep; cases hstep
            | some maker => rw [hmk] at hstep; cases hstep; rfl
  | matchPerpetualDeleveraging m =>
      simp only [processOperation] at hop
      by_cases hliq : isLiquidatable s m.liquidated
      · rw [if_pos hliq] at hop
        cases hop
        rw [foldl_deleveragingFills_placements m.liquidated m.perpetualId m.fills s]
        exact hnone
      · rw [if_neg hliq] at hop
        cases hop
  | orderRemoval oid' r =>
      cases hop
      by_cases hcase : oid = oid'
      · simp [hcase]
      · simpa [hcase] using hnone

theorem processOperations_placements_preserve_none
    (ops : List InternalOperation) :
    ∀ (ctx : BlockContext) (s : ProcessingState)
      (p : BlockContext × ProcessingState),
      processOperations ctx s ops = .ok p →
      ∀ oid, s.statefulOrderPlacements oid = none →
        p.2.statefulOrderPlacements oid = none := by
  induction ops with
  | nil =>
      intro ctx s p hrun oid hnone
      cases hrun
      exact hnone
  | cons op rest ih =>
      intro ctx s p hrun oid hnone
      unfold processOperations at hrun
      cases hop : processOperation ctx s op with
      | error e => rw [hop] at hrun; cases hrun
      | ok q =>
          rw [hop] at hrun
          exact ih q.1 q.2 p hrun oid
            (processOperation_placements_preserve_none ctx s op q hop oid hnone)

theorem processOperations_removals_delete (ops : List InternalOperation) :
    ∀ (ctx : BlockContext) (s : ProcessingState)
      (p : BlockContext × ProcessingState),
      processOperations ctx s ops = .ok p →
      ∀ oid, oid ∈ removalIdsOfOperations ops →
        p.2.statefulOrderPlacements oid = none := by
  induction ops with
  | nil =>
      intro ctx s p _ oid hmem
      cases hmem
  | cons op rest ih =>
      intro ctx s p hrun oid hmem
      unfold processOperations at hrun
      cases hop : processOperation ctx s op with
      | error e => rw [hop] at hrun; cases hrun
      | ok q =>
          rw [hop] at hrun
          rw [removalIdsOfOperations, List.flatMap_cons] at hmem
          rcases List.mem_append.mp hmem with hmem | hmem
          · cases op with
            | orderRemoval oid' r =>
                have hoid : oid = oid' := by simpa using hmem
                subst hoid
                cases hop
                exact processOperations_placements_preserve_none rest _ _ p hrun oid
                  (by simp)
            | shortTermOrderPlacement o => cases hmem
            | preexistingStatefulOrderPlacement oid' => cases hmem
            | matchOrders takerOrderId fills => cases hmem
            | matchPerpetualLiquidation m => cases hmem
            | matchPerpetualDeleveraging m => cases hmem
          · exact ih q.1 q.2 p hrun oid hmem

/-! ### Claim C8 (corrected) -/

/-- C8 (counterexample to the claim as stated): the claim says the removed
order ids appear in `RemovedStatefulOrderIds` in the order the removal
operations appear in the proposal.  For the proposal order
`[orderIdB, orderIdA]` the generated list is `[orderIdA, orderIdB]` — the
deterministic sorted order, not the proposal order. -/
theorem removedStatefulOrderIds_not_proposal_order :
    removalIdsOfOperations
        [.orderRemoval orderIdB 0, .orderRemoval orderIdA 0]
        = [orderIdB, orderIdA]
    ∧ (generateProcessProposerMatchesEvents
          [.orderRemoval orderIdB 0, .orderRemoval orderIdA 0] 5).removedStatefulOrderIds
        = [orderIdA, orderIdB]
    ∧ ([orderIdA, orderIdB] : List OrderId) ≠ [orderIdB, orderIdA] := by
  refine ⟨by decide, ?_, by decide⟩
  decide

/-- C8 (amended): processing a list of operations whose removal operations
reference previously persisted stateful orders deletes each referenced
order's placement from state (it is no longer retrievable), and the removed
order ids are recorded in `RemovedStatefulOrderIds` deduplicated and in the
deterministic sorted order of the order-id sort key — not in the order the
removal operations appear in the proposal. -/
theorem processProposerOperations_order_removals
    (s : ProcessingState) (operations : List InternalOperation)
    (blockHeight : Nat)
    (hok : resultError (processProposerOperations s operations blockHeight) = none) :
    (∀ oid ∈ removalIdsOfOperations operations,
      (committedState s operations blockHeight).statefulOrderPlacements oid = none)
    ∧ resultEvents s operations blockHeight
        = some (generateProcessProposerMatchesEvents operations blockHeight)
    ∧ (generateProcessProposerMatchesEvents operations blockHeight).removedStatefulOrderIds
        = addIdsToPrunable [] (removalIdsOfOperations operations)
    ∧ ((generateProcessProposerMatchesEvents operations
          blockHeight).removedStatefulOrderIds).Pairwise oidLt
    ∧ ((generateProcessProposerMatchesEvents operations
          blockHeight).removedStatefulOrderIds).Nodup
    ∧ (∀ oid,
        oid ∈ (generateProcessProposerMatchesEvents operations
            blockHeight).removedStatefulOrderIds
          ↔ oid ∈ removalIdsOfOperations operations) := by
  have hremoved : (generateProcessProposerMatchesEvents operations
      blockHeight).removedStatefulOrderIds
      = addIdsToPrunable [] (removalIdsOfOperations operations) := by
    unfold generateProcessProposerMatchesEvents
    rw [generateEvents_foldl_removed]
  have hsorted : ((generateProcessProposerMatchesEvents operations
      blockHeight).removedStatefulOrderIds).Pairwise oidLt := by
    rw [hremoved]
    exact sorted_addIdsToPrunable List.Pairwise.nil
  refine ⟨?_, ?_, hremoved, hsorted, List.Pairwise.nodup hsorted, ?_⟩
  · intro oid hmem
    unfold resultError processProposerOperations at hok
    unfold committedState processProposerOperations
    cases hrun : processOperations emptyBlockContext s operations with
    | error e => rw [hrun] at hok; cases hok
    | ok p =>
        exact processOperations_removals_delete operations emptyBlockContext s p
          hrun oid hmem
  · unfold resultError processProposerOperations at hok
    unfold resultEvents processProposerOperations
    cases hrun : processOperations emptyBlockContext s operations with
    | error e => rw [hrun] at hok; cases hok
    | ok p => rfl
  · intro oid
    rw [hremoved]
    simp [mem_addIdsToPrunable]

/-- A concrete pre-block state holding two persisted stateful orders, used to
exercise the order-removal path. -/
def removalScenarioState : ProcessingState :=
  { subaccounts := fun _ => ⟨0, []⟩
    statefulOrderPlacements := fun i =>
      if i = orderIdA then some ⟨orderIdA, .buy, 5, 10, 15⟩
      else if i = orderIdB then some ⟨orderIdB, .buy, 25, 30, 10⟩
      else none
    oraclePrice := fun _ => 0
    maintenanceMarginPpm := fun _ => 0
    makerFeePpm := 0
    takerFeePpm := 0 }

theorem processProposerOperations_order_removals_witness :
    (committedState removalScenarioState
        [.orderRemoval orderIdB 0, .orderRemoval orderIdA 0]
        5).statefulOrderPlacements orderIdB = none :=
  (processProposerOperations_order_removals removalScenarioState
    [.orderRemoval orderIdB 0, .orderRemoval orderIdA 0] 5 rfl).1
    orderIdB (by decide)

/-! ### Claim C1 -/

theorem processOperations_append (l₁ l₂ : List InternalOperation) :
    ∀ (ctx : BlockContext) (s : ProcessingState),
      processOperations ctx s (l₁ ++ l₂)
        = match processOperations ctx s l₁ with
          | .ok p => processOperations p.1 p.2 l₂
          | .error e => .error e := by
  induction l₁ with
  | nil => intro ctx s; rfl
  | cons op rest ih =>
      intro ctx s
      rw [List.cons_append]
      cases hop : processOperation ctx s op with
      | error e => simp only [processOperations, hop]
      | ok q =>
          simp only [processOperations, hop]
          exact ih q.1 q.2

/-- C1: if replaying the operations before a `PerpetualDeleveragingMatch`
succeeds and the match's liquidated subaccount is not liquidatable under the
margin state current at that point, then `ProcessProposerOperations` on the
whole list returns the `DeleveragedSubaccountNotLiquidatable` error (whose
message contains that string), and the state the caller commits is exactly
the pre-block state — every subaccount's quote balance and perpetual
positions are untouched (full rollback, no partial application). -/
theorem processProposerOperations_deleveraging_gate
    (s : ProcessingState) (pre post : List InternalOperation)
    (m : MatchPerpetualDeleveraging) (blockHeight : Nat)
    (ctx₁ : BlockContext) (s₁ : ProcessingState)
    (hpre : processOperations emptyBlockContext s pre = .ok (ctx₁, s₁))
    (hnotliq : isLiquidatable s₁ m.liquidated = false) :
    resultError (processProposerOperations s
          (pre ++ .matchPerpetualDeleveraging m :: post) blockHeight)
        = some .deleveragedSubaccountNotLiquidatable
    ∧ strContains (clobErrMsg .deleveragedSubaccountNotLiquidatable)
        "DeleveragedSubaccountNotLiquidatable" = true
    ∧ committedState s (pre ++ .matchPerpetualDeleveraging m :: post) blockHeight = s
    ∧ (∀ aid,
        (committedState s (pre ++ .matchPerpetualDeleveraging m :: post)
            blockHeight).subaccounts aid = s.subaccounts aid) := by
  have hstep : processOperation ctx₁ s₁ (.matchPerpetualDeleveraging m)
      = .error .deleveragedSubaccountNotLiquidatable := by
    simp [processOperation, hnotliq]
  have hrun : processOperations emptyBlockContext s
      (pre ++ .matchPerpetualDeleveraging m :: post)
      = .error .deleveragedSubaccountNotLiquidatable := by
    rw [processOperations_append pre (.matchPerpetualDeleveraging m :: post)
      emptyBlockContext s, hpre]
    unfold processOperations
    rw [hstep]
  have hfull : processProposerOperations s
      (pre ++ .matchPerpetualDeleveraging m :: post) blockHeight
      = .error .deleveragedSubaccountNotLiquidatable := by
    unfold processProposerOperations
    rw [hrun]
  have hcommit : committedState s (pre ++ .matchPerpetualDeleveraging m :: post)
      blockHeight = s := by
    unfold committedState
    rw [hfull]
  refine ⟨?_, by decide, hcommit, fun aid => ?_⟩
  · unfold resultError
    rw [hfull]
  · rw [hcommit]

/-- A concrete pre-block state mirroring the test's deleveraging scenario:
Carl is short one unit of perpetual 0 with 55 000 quote, Dave is long one
unit with 50 000 quote, the oracle price is 50 000 and the maintenance margin
fraction is 10% — Carl's net collateral (5 000) equals his maintenance
requirement (5 000), so he is not liquidatable. -/
def deleveragingScenarioState : ProcessingState :=
  { subaccounts := fun aid =>
      if aid = ⟨0, 0⟩ then ⟨55000, [(0, -1)]⟩
      else if aid = ⟨1, 0⟩ then ⟨50000, [(0, 1)]⟩
      else ⟨0, []⟩
    statefulOrderPlacements := fun _ => none
    oraclePrice := fun _ => 50000
    maintenanceMarginPpm := fun _ => 100000
    makerFeePpm := 0
    takerFeePpm := 0 }

theorem processProposerOperations_deleveraging_gate_witness :
    resultError (processProposerOperations deleveragingScenarioState
        ([] ++ .matchPerpetualDeleveraging ⟨⟨0, 0⟩, 0, [⟨⟨1, 0⟩, 1⟩]⟩ :: []) 5)
      = some .deleveragedSubaccountNotLiquidatable :=
  (processProposerOperations_deleveraging_gate deleveragingScenarioState [] []
    ⟨⟨0, 0⟩, 0, [⟨⟨1, 0⟩, 1⟩]⟩ 5 emptyBlockContext deleveragingScenarioState
    rfl (by decide)).1

end V4Chain
